import Mathlib

/-!
# Verification of the deterministic dataset-analysis pipeline

Shallow embedding of `backend/app/analyzer.py` (classes `DataQualityAnalyzer`,
`RelationshipAnalyzer`, `BatchComparisonAnalyzer`, `GlobalMetricsAnalyzer`,
`DatasetAnalyzer`) over exact rational arithmetic.

Conventions used throughout:
* `float` values are modelled as `ℚ` (the pipeline is specified "modulo
  IEEE-754 rounding", so exact arithmetic is the reference semantics).
* nullable cells (`NaN`) are `Option ℚ`.
* A Pearson correlation coefficient `r = cov / (sx * sy)` is irrational in
  general, so it is represented exactly by the pair `Corr` of its numerator
  `num = n*Σxy − Σx*Σy` and the square of its denominator
  `den2 = (n*Σx² − (Σx)²) * (n*Σy² − (Σy)²)`; then `r = num / √den2`.
  Absolute-value comparisons of two coefficients are performed by
  cross-multiplying the squares, which agrees with the float comparison
  whenever the denominators are nonzero, and with the NaN convention
  (all comparisons false) when a denominator is zero, since `den2 = 0`
  forces `num = 0` by Cauchy-Schwarz.
* standard deviations (again irrational) are represented by their squares;
  every guard of the source that compares a standard deviation is translated
  to the equivalent comparison of squares.
-/

/- The Batteries rational-number operations are `@[irreducible]`, which blocks
kernel evaluation of concrete pipeline runs inside `decide`; restore the
default reducibility so witnesses and counterexamples can be checked by
computation. -/
set_option allowUnsafeReducibility true in
attribute [semireducible] Rat.add Rat.sub Rat.mul Rat.div Rat.inv

namespace Analyzer

/-! ## Basic list statistics -/

/-- Sum of pairwise products (`np.sum(x*y)` on equal-length arrays). -/
def sumMul (x y : List ℚ) : ℚ := (x.zipWith (· * ·) y).sum

/-- Sum of squares (`np.sum(x*x)`). -/
def sumSq (x : List ℚ) : ℚ := (x.map (fun v => v ^ 2)).sum

theorem sumSq_nonneg (x : List ℚ) : 0 ≤ sumSq x := by
  unfold sumSq
  induction x with
  | nil => simp
  | cons a t ih => simp only [List.map_cons, List.sum_cons]; positivity

theorem cauchy_step (a b c A B : ℚ) (hc : c ^ 2 ≤ A * B) (hA : 0 ≤ A) (hB : 0 ≤ B) :
    (a * b + c) ^ 2 ≤ (a ^ 2 + A) * (b ^ 2 + B) := by
  rcases eq_or_lt_of_le hB with hB0 | hBpos
  · have hc0 : c = 0 := by nlinarith [sq_nonneg c]
    subst hc0
    nlinarith [mul_nonneg hA (sq_nonneg b)]
  · nlinarith [sq_nonneg (a * B - c * b),
      mul_nonneg (add_nonneg (sq_nonneg b) hB) (sub_nonneg.mpr hc)]

/-- Cauchy–Schwarz for lists: `(Σ xᵢyᵢ)² ≤ (Σ xᵢ²)(Σ yᵢ²)`. -/
theorem sumMul_sq_le (x : List ℚ) : ∀ y : List ℚ, (sumMul x y) ^ 2 ≤ sumSq x * sumSq y := by
  induction x with
  | nil => intro y; simp [sumMul, sumSq]
  | cons a t ih =>
    intro y
    cases y with
    | nil => simp [sumMul, sumSq]
    | cons b u =>
      have hc := ih u
      have hA := sumSq_nonneg t
      have hB := sumSq_nonneg u
      simp only [sumMul, sumSq, List.zipWith_cons_cons, List.map_cons, List.sum_cons] at *
      exact cauchy_step a b _ _ _ hc hA hB

/-- `n·Σx² − (Σx)²`, i.e. `n²` times the population variance of `x`. -/
def varRep (x : List ℚ) : ℚ := (x.length : ℚ) * sumSq x - x.sum ^ 2

theorem sumMul_replicate_one (x : List ℚ) :
    sumMul x (List.replicate x.length 1) = x.sum := by
  induction x with
  | nil => simp [sumMul]
  | cons a t ih => simpa [sumMul, List.replicate_succ] using ih

theorem sumSq_replicate_one (n : ℕ) : sumSq (List.replicate n 1) = n := by
  induction n with
  | zero => simp [sumSq]
  | succ k ih =>
    rw [List.replicate_succ]
    simp only [sumSq, List.map_cons, List.sum_cons] at ih ⊢
    rw [ih]
    push_cast
    ring

theorem varRep_nonneg (x : List ℚ) : 0 ≤ varRep x := by
  have h := sumMul_sq_le x (List.replicate x.length 1)
  rw [sumMul_replicate_one, sumSq_replicate_one] at h
  unfold varRep
  nlinarith [h]

/-! ## Pearson correlation representation -/

/-- Exact representation of a Pearson coefficient `r = num / √den2`
(`scipy.stats.pearsonr` on two equal-length arrays); `den2 = 0` corresponds
to the float result `NaN` (a constant input series). -/
structure Corr where
  num : ℚ
  den2 : ℚ
  deriving DecidableEq

/-- The representation produced by `stats.pearsonr(x, y)` for equal-length
`x`, `y`; both factors of `den2` are `n²` times the respective variances. -/
def pearsonr (x y : List ℚ) : Corr :=
  { num := (x.length : ℚ) * sumMul x y - x.sum * y.sum
    den2 := varRep x * varRep y }

theorem sumMul_map_sub (a b : ℚ) :
    ∀ (x y : List ℚ), x.length = y.length →
      sumMul (x.map (fun v => v - a)) (y.map (fun v => v - b)) =
        sumMul x y - a * y.sum - b * x.sum + (x.length : ℚ) * (a * b) := by
  intro x
  induction x with
  | nil =>
    intro y h
    cases y with
    | nil => simp [sumMul]
    | cons c u => simp at h
  | cons c t ih =>
    intro y h
    cases y with
    | nil => simp at h
    | cons d u =>
      have h' : t.length = u.length := by simpa using h
      have := ih u h'
      simp only [List.map_cons, sumMul, List.zipWith_cons_cons, List.sum_cons,
        List.length_cons] at *
      push_cast
      nlinarith [this]

theorem sumSq_map_sub (a : ℚ) (x : List ℚ) :
    sumSq (x.map (fun v => v - a)) =
      sumSq x - 2 * a * x.sum + (x.length : ℚ) * a ^ 2 := by
  induction x with
  | nil => simp [sumSq]
  | cons c t ih =>
    simp only [List.map_cons, sumSq, List.sum_cons, List.length_cons] at *
    push_cast
    nlinarith [ih]

/-- Cauchy–Schwarz for the Pearson representation: the numerator squared never
exceeds the squared denominator, i.e. `|r| ≤ 1` whenever `r` is defined. -/
theorem pearsonr_sq_le (x y : List ℚ) (hlen : x.length = y.length) :
    (pearsonr x y).num ^ 2 ≤ (pearsonr x y).den2 := by
  rcases Nat.eq_zero_or_pos x.length with h0 | hpos
  · have hx : x = [] := List.length_eq_zero.mp h0
    have hy : y = [] := List.length_eq_zero.mp (by omega)
    subst hx; subst hy
    simp [pearsonr, sumMul, sumSq, varRep]
  · set n : ℚ := (x.length : ℚ) with hn
    have hnpos : (0 : ℚ) < n := by rw [hn]; exact_mod_cast hpos
    set cx := x.map (fun v => v - x.sum / n) with hcx
    set cy := y.map (fun v => v - y.sum / n) with hcy
    have hnum : (pearsonr x y).num = n * sumMul cx cy := by
      rw [hcx, hcy, sumMul_map_sub _ _ x y hlen]
      simp only [pearsonr]
      field_simp
      ring
    have hvx : varRep x = n * sumSq cx := by
      rw [hcx, sumSq_map_sub]
      simp only [varRep]
      field_simp
      ring
    have hvy : varRep y = n * sumSq cy := by
      rw [hcy, sumSq_map_sub]
      simp only [varRep, ← hn]
      rw [show ((y.length : ℚ)) = n from by rw [hn]; exact_mod_cast hlen.symm]
      field_simp
      ring
    have hcs := sumMul_sq_le cx cy
    have hden : (pearsonr x y).den2 = varRep x * varRep y := rfl
    rw [hnum, hden, hvx, hvy]
    calc (n * sumMul cx cy) ^ 2 = n ^ 2 * (sumMul cx cy) ^ 2 := by ring
      _ ≤ n ^ 2 * (sumSq cx * sumSq cy) := by nlinarith [sq_nonneg n]
      _ = n * sumSq cx * (n * sumSq cy) := by ring

/-! ## `RelationshipAnalyzer` -/

/-- The null-mask of `RelationshipAnalyzer.compute_correlations` /
`compute_lagged_correlation`: `mask = ~(isnan(x) | isnan(y))`, returning
`(x[mask], y[mask])`. -/
def cleanPair (x y : List (Option ℚ)) : List ℚ × List ℚ :=
  let ps := (x.zip y).filterMap (fun p =>
    match p with
    | (some a, some b) => some (a, b)
    | _ => none)
  (ps.map Prod.fst, ps.map Prod.snd)

theorem cleanPair_length (x y : List (Option ℚ)) :
    (cleanPair x y).1.length = (cleanPair x y).2.length := by
  simp [cleanPair]

theorem cleanPair_all_some (x y : List ℚ) (h : x.length = y.length) :
    cleanPair (x.map some) (y.map some) = (x, y) := by
  unfold cleanPair
  induction x generalizing y with
  | nil =>
    cases y with
    | nil => simp
    | cons b u => simp at h
  | cons a t ih =>
    cases y with
    | nil => simp at h
    | cons b u =>
      have h' : t.length = u.length := by simpa using h
      have := ih u h'
      simp only [List.map_cons, List.zip_cons_cons, List.filterMap_cons] at this ⊢
      simp_all

/-- Result of `RelationshipAnalyzer.compute_correlations`.  The Spearman
coefficient and the two p-values of the source are not modelled: no claim
refers to their values (Spearman needs mid-rank assignment and the p-values
need the irrational t/beta distributions). -/
structure Correlations where
  available : Bool
  pearson : Option Corr
  n_samples : ℕ
  deriving DecidableEq

/-- `RelationshipAnalyzer.compute_correlations`: drop null pairs, require at
least 5 remaining samples, else unavailable. -/
def compute_correlations (x y : List (Option ℚ)) : Correlations :=
  let xc := (cleanPair x y).1
  let yc := (cleanPair x y).2
  if xc.length < 5 then { available := false, pearson := none, n_samples := 0 }
  else { available := true, pearson := some (pearsonr xc yc), n_samples := xc.length }

/-- `abs(r) > abs(best)` on the square representation (cross-multiplied).
Agrees with the float comparison whenever both `den2` are nonzero; when one is
zero its numerator is forced to zero (Cauchy–Schwarz), and both sides of the
comparison collapse to `False`, matching the all-false NaN comparisons. -/
def AbsGT (a b : Corr) : Prop := b.num ^ 2 * a.den2 < a.num ^ 2 * b.den2

instance (a b : Corr) : Decidable (AbsGT a b) := by unfold AbsGT; infer_instance

/-- A coefficient with `|r| = 1` (perfectly correlated, defined denominator). -/
def Perfect (c : Corr) : Prop := 0 < c.den2 ∧ c.num ^ 2 = c.den2

instance (c : Corr) : Decidable (Perfect c) := by unfold Perfect; infer_instance

/-- The two shifted windows for a given lag
(`x_shifted`/`y_shifted` of `compute_lagged_correlation`). -/
def shiftPair (x y : List ℚ) (lag : ℤ) : List ℚ × List ℚ :=
  if lag < 0 then (x.take (x.length - (-lag).toNat), y.drop (-lag).toNat)
  else if 0 < lag then (x.drop lag.toNat, y.take (y.length - lag.toNat))
  else (x, y)

theorem shiftPair_length (x y : List ℚ) (h : x.length = y.length) (lag : ℤ) :
    (shiftPair x y lag).1.length = (shiftPair x y lag).2.length := by
  unfold shiftPair
  split
  · simp [h]
  · split
    · simp [h]
    · simpa using h

/-- One entry of the reported `lag_profile`. -/
structure LagEntry where
  lag : ℤ
  correlation : Corr
  deriving DecidableEq

/-- Loop state of the `for lag in range(-max_lag, max_lag+1)` loop. -/
structure LagState where
  best_lag : ℤ
  best_corr : Corr
  profile : List LagEntry
  deriving DecidableEq

/-- One iteration of the lag loop: skip if the overlap is below 5 samples,
otherwise record the lag in the profile and update the running best on a
strict `abs(r) > abs(best_corr)` improvement. -/
def lagStep (x y : List ℚ) (st : LagState) (lag : ℤ) : LagState :=
  let xs := (shiftPair x y lag).1
  let ys := (shiftPair x y lag).2
  if xs.length < 5 then st
  else
    let r := pearsonr xs ys
    if AbsGT r st.best_corr then
      { best_lag := lag, best_corr := r, profile := st.profile ++ [⟨lag, r⟩] }
    else
      { st with profile := st.profile ++ [⟨lag, r⟩] }

/-- The lag sequence `range(-max_lag, max_lag + 1)`. -/
def lagRange (maxLag : ℕ) : List ℤ :=
  (List.range (2 * maxLag + 1)).map (fun i : ℕ => (i : ℤ) - (maxLag : ℤ))

/-- Result of `RelationshipAnalyzer.compute_lagged_correlation`. -/
structure LaggedCorrelation where
  available : Bool
  best_lag : ℤ
  best_correlation : Corr
  lag_profile : List LagEntry
  deriving DecidableEq

/-- `RelationshipAnalyzer.compute_lagged_correlation`: clean the pair, require
`max_lag + 5` samples, then scan all lags.  The float initialisation
`best_corr = 0` is the representation `⟨0, 1⟩` (`r = 0`). -/
def compute_lagged_correlation (x y : List (Option ℚ)) (maxLag : ℕ) : LaggedCorrelation :=
  let xc := (cleanPair x y).1
  let yc := (cleanPair x y).2
  if xc.length < maxLag + 5 then
    { available := false, best_lag := 0, best_correlation := ⟨0, 1⟩, lag_profile := [] }
  else
    let st := (lagRange maxLag).foldl (lagStep xc yc) ⟨0, ⟨0, 1⟩, []⟩
    { available := true, best_lag := st.best_lag, best_correlation := st.best_corr
      lag_profile := st.profile }

/-- Per-batch correlation stability
(`RelationshipAnalyzer.compute_relationship_stability`).  The mean/std/
consistency outputs are real-valued functions of the per-batch coefficients
(irrational means of irrational values); no claim refers to them, so the
embedding records the availability decision (`≥ 2` batch coefficients) and the
exact list of per-batch coefficients the source would aggregate. -/
structure Stability where
  available : Bool
  batch_correlations : List Corr
  deriving DecidableEq

/-! ### Lag-loop lemmas -/

theorem pearsonr_den2_nonneg (x y : List ℚ) : 0 ≤ (pearsonr x y).den2 :=
  mul_nonneg (varRep_nonneg x) (varRep_nonneg y)

/-- The Pearson coefficient of the two windows at a given lag. -/
def windowCorr (x y : List ℚ) (lag : ℤ) : Corr :=
  pearsonr (shiftPair x y lag).1 (shiftPair x y lag).2

/-- The profile entry the loop appends at a given lag (`none` when the
overlap-length guard skips the lag). -/
def lagEntryAt (x y : List ℚ) (lag : ℤ) : Option LagEntry :=
  if (shiftPair x y lag).1.length < 5 then none else some ⟨lag, windowCorr x y lag⟩

theorem foldl_lagStep_profile (x y : List ℚ) :
    ∀ (lags : List ℤ) (st : LagState),
      (lags.foldl (lagStep x y) st).profile =
        st.profile ++ lags.filterMap (lagEntryAt x y) := by
  intro lags
  induction lags with
  | nil => intro st; simp
  | cons l t ih =>
    intro st
    simp only [List.foldl_cons, List.filterMap_cons, ih]
    unfold lagStep lagEntryAt windowCorr
    by_cases hskip : (shiftPair x y l).1.length < 5
    · simp [hskip]
    · by_cases himp : AbsGT (pearsonr (shiftPair x y l).1 (shiftPair x y l).2) st.best_corr
      · simp [hskip, himp]
      · simp [hskip, himp]

/-- Once the running best is perfect (`|r| = 1`), no later lag can strictly
improve on it: Cauchy–Schwarz bounds every candidate by `|r| ≤ 1`. -/
theorem foldl_lagStep_frozen (x y : List ℚ) (hxy : x.length = y.length) :
    ∀ (lags : List ℤ) (st : LagState), Perfect st.best_corr →
      (lags.foldl (lagStep x y) st).best_corr = st.best_corr ∧
        (lags.foldl (lagStep x y) st).best_lag = st.best_lag := by
  intro lags
  induction lags with
  | nil => intro st _; exact ⟨rfl, rfl⟩
  | cons l t ih =>
    intro st hperf
    have hnoimp : ¬ AbsGT (pearsonr (shiftPair x y l).1 (shiftPair x y l).2) st.best_corr := by
      intro himp
      have hcs := pearsonr_sq_le (shiftPair x y l).1 (shiftPair x y l).2
        (shiftPair_length x y hxy l)
      unfold AbsGT at himp
      rcases hperf with ⟨hpos, heq⟩
      nlinarith [himp, hcs, pearsonr_den2_nonneg (shiftPair x y l).1 (shiftPair x y l).2]
    have hstep : lagStep x y st l = { st with
        profile := if (shiftPair x y l).1.length < 5 then st.profile
          else st.profile ++ [⟨l, pearsonr (shiftPair x y l).1 (shiftPair x y l).2⟩] } := by
      unfold lagStep
      by_cases hskip : (shiftPair x y l).1.length < 5
      · simp [hskip]
      · simp [hskip, hnoimp]
    simp only [List.foldl_cons, hstep]
    exact ih _ hperf

/-- The state invariant along lags whose window correlation is not perfect:
the running best stays strictly below `|r| = 1` (with a defined denominator). -/
def StrictBelowOne (st : LagState) : Prop :=
  0 < st.best_corr.den2 ∧ st.best_corr.num ^ 2 < st.best_corr.den2

theorem foldl_lagStep_strict (x y : List ℚ) (hxy : x.length = y.length) :
    ∀ (lags : List ℤ) (st : LagState),
      (∀ l ∈ lags, ¬ Perfect (windowCorr x y l)) → StrictBelowOne st →
      StrictBelowOne (lags.foldl (lagStep x y) st) := by
  intro lags
  induction lags with
  | nil => intro st _ hst; exact hst
  | cons l t ih =>
    intro st hnp hst
    have hstep : StrictBelowOne (lagStep x y st l) := by
      unfold lagStep
      by_cases hskip : (shiftPair x y l).1.length < 5
      · simpa [hskip] using hst
      · by_cases himp : AbsGT (pearsonr (shiftPair x y l).1 (shiftPair x y l).2) st.best_corr
        · simp only [hskip, if_neg (by omega : ¬ (shiftPair x y l).1.length < 5), himp, if_pos]
          have hcs := pearsonr_sq_le (shiftPair x y l).1 (shiftPair x y l).2
            (shiftPair_length x y hxy l)
          have hd0 := pearsonr_den2_nonneg (shiftPair x y l).1 (shiftPair x y l).2
          have hnperf := hnp l (List.mem_cons_self l t)
          unfold AbsGT at himp
          unfold Perfect at hnperf
          unfold windowCorr at hnperf
          constructor
          · rcases hst with ⟨hb1, hb2⟩
            by_contra hle
            push_neg at hle
            have hz : (pearsonr (shiftPair x y l).1 (shiftPair x y l).2).den2 = 0 :=
              le_antisymm hle hd0
            have : (pearsonr (shiftPair x y l).1 (shiftPair x y l).2).num ^ 2 ≤ 0 := by
              rw [← hz]; exact hcs
            nlinarith [himp, sq_nonneg (pearsonr (shiftPair x y l).1 (shiftPair x y l).2).num,
              sq_nonneg st.best_corr.num]
          · rcases hst with ⟨hb1, hb2⟩
            have hdpos : 0 < (pearsonr (shiftPair x y l).1 (shiftPair x y l).2).den2 := by
              by_contra hle
              push_neg at hle
              have hz : (pearsonr (shiftPair x y l).1 (shiftPair x y l).2).den2 = 0 :=
                le_antisymm hle hd0
              have hnum : (pearsonr (shiftPair x y l).1 (shiftPair x y l).2).num ^ 2 ≤ 0 := by
                rw [← hz]; exact hcs
              nlinarith [himp, sq_nonneg st.best_corr.num]
            rcases lt_or_eq_of_le hcs with hlt | heq
            · exact hlt
            · exact absurd ⟨hdpos, heq⟩ hnperf
        · simpa [hskip, himp] using hst
    simp only [List.foldl_cons]
    exact ih _ (fun m hm => hnp m (List.mem_cons_of_mem l hm)) hstep

theorem shiftPair_zero (x y : List ℚ) : shiftPair x y 0 = (x, y) := by
  unfold shiftPair
  norm_num

/-- Processing lag 0 from a strictly-below-one state, when the full pair is
perfectly correlated, installs lag 0 as the running best. -/
theorem lagStep_zero_perfect (x y : List ℚ) (st : LagState)
    (hlen : ¬ x.length < 5) (hperf : Perfect (pearsonr x y)) (hst : StrictBelowOne st) :
    lagStep x y st 0 =
      { best_lag := 0, best_corr := pearsonr x y,
        profile := st.profile ++ [⟨0, pearsonr x y⟩] } := by
  unfold lagStep
  rw [shiftPair_zero]
  simp only [hlen, if_neg hlen]
  have himp : AbsGT (pearsonr x y) st.best_corr := by
    unfold AbsGT
    rcases hperf with ⟨hpos, heq⟩
    rcases hst with ⟨hb1, hb2⟩
    calc st.best_corr.num ^ 2 * (pearsonr x y).den2
        < st.best_corr.den2 * (pearsonr x y).den2 := by
          exact mul_lt_mul_of_pos_right hb2 hpos
      _ = (pearsonr x y).num ^ 2 * st.best_corr.den2 := by rw [heq]; ring
  simp [himp]

/-! ### Anti-correlated pairs (`y = -x`) -/

/-- Pointwise negation, the scenario column `y = -x`. -/
def negList (x : List ℚ) : List ℚ := x.map (fun v => -v)

theorem negList_length (x : List ℚ) : (negList x).length = x.length := by
  simp [negList]

theorem sum_negList (x : List ℚ) : (negList x).sum = -x.sum := by
  induction x with
  | nil => simp [negList]
  | cons a t ih => simp only [negList, List.map_cons, List.sum_cons] at ih ⊢; rw [ih]; ring

theorem sumSq_negList (x : List ℚ) : sumSq (negList x) = sumSq x := by
  induction x with
  | nil => rfl
  | cons a t ih =>
    simp only [negList, sumSq, List.map_cons, List.sum_cons] at ih ⊢
    rw [ih]; ring

theorem sumMul_negList (x : List ℚ) : sumMul x (negList x) = -sumSq x := by
  induction x with
  | nil => rfl
  | cons a t ih =>
    simp only [negList, sumMul, sumSq, List.map_cons, List.zipWith_cons_cons,
      List.sum_cons] at ih ⊢
    rw [ih]; ring

theorem varRep_negList (x : List ℚ) : varRep (negList x) = varRep x := by
  unfold varRep
  rw [sum_negList, sumSq_negList, negList_length]; ring

theorem pearsonr_negList (x : List ℚ) :
    pearsonr x (negList x) = ⟨-varRep x, varRep x * varRep x⟩ := by
  unfold pearsonr
  rw [sumMul_negList, sum_negList, varRep_negList]
  unfold varRep
  simp only [Corr.mk.injEq]
  constructor
  · ring
  · trivial

/-- The representation of the coefficient `r = -1`: negative numerator with
`num² = den2` (so `num / √den2 = -1`). -/
def NegOne (c : Corr) : Prop := c.num < 0 ∧ c.num ^ 2 = c.den2

instance (c : Corr) : Decidable (NegOne c) := by unfold NegOne; infer_instance

/-- Ten rows `x = 0..9` (no nulls). -/
def exampleX : List (Option ℚ) := (List.range 10).map (fun i => some (i : ℚ))

/-- Its pointwise negation `y = -x`. -/
def exampleY : List (Option ℚ) := (List.range 10).map (fun i => some (-(i : ℚ)))

set_option maxRecDepth 40000 in
/-- C2 counterexample: a pair `y = -x` over ten null-free rows on which the
relationship scan (as the pipeline runs it, `max_lag = 5`) reports best lag
`-5`, not `0`: every shifted window of the linear series is also perfectly
anti-correlated, and the loop only replaces the running best on a *strict*
improvement of `|r|`, so the first lag scanned (`-5`) wins the tie.  The
unlagged Pearson coefficient is exactly `-1` as claimed. -/
theorem lagged_best_lag_counterexample :
    exampleY = exampleX.map (Option.map (fun v => -v)) ∧
    exampleX.length = 10 ∧ exampleX.all Option.isSome = true ∧
    (compute_correlations exampleX exampleY).pearson = some ⟨-825, 680625⟩ ∧
    NegOne ⟨-825, 680625⟩ ∧
    (compute_lagged_correlation exampleX exampleY 5).available = true ∧
    (compute_lagged_correlation exampleX exampleY 5).best_lag = -5 ∧
    ¬ (compute_lagged_correlation exampleX exampleY 5).best_lag = 0 := by
  decide

/-- C2 amended: for `y = -x` on a non-constant series with no nulls, the
unlagged Pearson coefficient is exactly `-1` as soon as 5 rows are present;
the lagged scan (`max_lag = 5`) is available iff at least `5 + 5 = 10` rows
are present, and then the best correlation is the perfect `r = -1`, reported
at lag `0` provided no negative lag's shifted windows are themselves
perfectly correlated (ties of `|r|` keep the earliest lag scanned). -/
theorem anticorrelated_pair_spec (x : List ℚ) (hvar : 0 < varRep x)
    (hneg : ∀ l ∈ lagRange 5, l < 0 → ¬ Perfect (windowCorr x (negList x) l)) :
    (5 ≤ x.length →
      (compute_correlations (x.map some) ((negList x).map some)).available = true ∧
      (compute_correlations (x.map some) ((negList x).map some)).pearson
        = some (pearsonr x (negList x)) ∧
      NegOne (pearsonr x (negList x))) ∧
    ((compute_lagged_correlation (x.map some) ((negList x).map some) 5).available = true
       ↔ 10 ≤ x.length) ∧
    (10 ≤ x.length →
      (compute_lagged_correlation (x.map some) ((negList x).map some) 5).best_lag = 0 ∧
      (compute_lagged_correlation (x.map some) ((negList x).map some) 5).best_correlation
        = pearsonr x (negList x)) := by
  have hlen : x.length = (negList x).length := (negList_length x).symm
  have hclean : cleanPair (x.map some) ((negList x).map some) = (x, negList x) :=
    cleanPair_all_some x (negList x) hlen
  have hperf : Perfect (pearsonr x (negList x)) := by
    rw [pearsonr_negList]
    constructor
    · show 0 < varRep x * varRep x
      exact mul_pos hvar hvar
    · show (-varRep x) ^ 2 = varRep x * varRep x
      ring
  have hnegone : NegOne (pearsonr x (negList x)) := by
    rw [pearsonr_negList]
    constructor
    · show -varRep x < 0
      linarith
    · show (-varRep x) ^ 2 = varRep x * varRep x
      ring
  refine ⟨?_, ?_, ?_⟩
  · intro h5
    unfold compute_correlations
    rw [hclean]
    simp only [if_neg (by omega : ¬ x.length < 5)]
    exact ⟨by simp, by simp, hnegone⟩
  · unfold compute_lagged_correlation
    rw [hclean]
    by_cases h10 : x.length < 5 + 5
    · simp only [if_pos h10]
      constructor
      · intro h; exact absurd h (by simp)
      · intro h; omega
    · simp only [if_neg h10]
      constructor
      · intro _; omega
      · intro _; simp
  · intro h10
    unfold compute_lagged_correlation
    rw [hclean]
    simp only [if_neg (by omega : ¬ x.length < 5 + 5)]
    have hrange : lagRange 5 = [-5, -4, -3, -2, -1] ++ 0 :: [1, 2, 3, 4, 5] := by decide
    rw [hrange, List.foldl_append]
    set st1 := List.foldl (lagStep x (negList x)) ⟨0, ⟨0, 1⟩, []⟩ [-5, -4, -3, -2, -1] with hst1
    have hstrict1 : StrictBelowOne st1 := by
      rw [hst1]
      apply foldl_lagStep_strict x (negList x) hlen
      · intro l hl
        apply hneg l
        · rw [hrange]; exact List.mem_append_left _ hl
        · have : l = -5 ∨ l = -4 ∨ l = -3 ∨ l = -2 ∨ l = -1 := by simpa using hl
          rcases this with h | h | h | h | h <;> rw [h] <;> decide
      · exact ⟨by norm_num, by norm_num⟩
    have hstep0 : lagStep x (negList x) st1 0 =
        { best_lag := 0, best_corr := pearsonr x (negList x),
          profile := st1.profile ++ [⟨0, pearsonr x (negList x)⟩] } :=
      lagStep_zero_perfect x (negList x) st1 (by omega) hperf hstrict1
    rw [List.foldl_cons, hstep0]
    have hfrozen := foldl_lagStep_frozen x (negList x) hlen [1, 2, 3, 4, 5]
      { best_lag := 0, best_corr := pearsonr x (negList x),
        profile := st1.profile ++ [⟨0, pearsonr x (negList x)⟩] } hperf
    exact ⟨hfrozen.2, hfrozen.1⟩

/-- Concrete series for the C2 witness: non-constant, 11 rows, and no
negative lag produces perfectly correlated windows (the final jump from 9 to
11 breaks affinity of every shifted overlap). -/
def witnessX : List ℚ := [0, 1, 2, 3, 4, 5, 6, 7, 8, 9, 11]

theorem anticorrelated_pair_spec_witness :
    (0 : ℚ) < varRep witnessX ∧
    (compute_correlations (witnessX.map some) ((negList witnessX).map some)).available
      = true ∧
    NegOne (pearsonr witnessX (negList witnessX)) ∧
    (compute_lagged_correlation (witnessX.map some) ((negList witnessX).map some) 5).best_lag
      = 0 := by
  have h := anticorrelated_pair_spec witnessX (by decide) (by decide)
  refine ⟨by decide, (h.1 (by decide)).1, (h.1 (by decide)).2.2, (h.2.2 (by decide)).1⟩

/-- C3: whenever both the plain correlation and the lagged scan are available
for a pair of series, the profile entry at lag 0 is exactly the unlagged
Pearson coefficient of the same null-cleaned pair. -/
theorem lag_zero_matches_unlagged (x y : List (Option ℚ)) (L : ℕ)
    (_hc : (compute_correlations x y).available = true)
    (hl : (compute_lagged_correlation x y L).available = true) :
    ∃ r : Corr, (compute_correlations x y).pearson = some r ∧
      (⟨0, r⟩ : LagEntry) ∈ (compute_lagged_correlation x y L).lag_profile ∧
      ∀ e ∈ (compute_lagged_correlation x y L).lag_profile, e.lag = 0 → e.correlation = r := by
  set xc := (cleanPair x y).1 with hxc
  set yc := (cleanPair x y).2 with hyc
  have hlong : ¬ xc.length < L + 5 := by
    intro hshort
    unfold compute_lagged_correlation at hl
    rw [← hxc] at hl
    simp only [if_pos hshort] at hl
    exact absurd hl (by simp)
  have h5 : ¬ xc.length < 5 := by intro h; exact hlong (by omega)
  refine ⟨pearsonr xc yc, ?_, ?_, ?_⟩
  · unfold compute_correlations
    rw [← hxc, ← hyc]
    simp only [if_neg h5]
  · unfold compute_lagged_correlation
    rw [← hxc, ← hyc]
    simp only [if_neg hlong]
    rw [foldl_lagStep_profile]
    simp only [List.nil_append]
    have hmem0 : (0 : ℤ) ∈ lagRange L := by
      unfold lagRange
      have hLmem : L ∈ List.range (2 * L + 1) := List.mem_range.mpr (by omega)
      rw [show (0 : ℤ) = (L : ℤ) - (L : ℤ) from (sub_self _).symm]
      exact List.mem_map_of_mem (fun i : ℕ => (i : ℤ) - (L : ℤ)) hLmem
    apply List.mem_filterMap.mpr
    refine ⟨0, hmem0, ?_⟩
    unfold lagEntryAt windowCorr
    rw [shiftPair_zero]
    simp only [if_neg h5]
  · unfold compute_lagged_correlation
    rw [← hxc, ← hyc]
    simp only [if_neg hlong]
    rw [foldl_lagStep_profile]
    simp only [List.nil_append]
    intro e he he0
    rcases List.mem_filterMap.mp he with ⟨l, _, hentry⟩
    unfold lagEntryAt at hentry
    by_cases hskip : (shiftPair xc yc l).1.length < 5
    · rw [if_pos hskip] at hentry; exact absurd hentry (by simp)
    · rw [if_neg hskip] at hentry
      have he' : e = ⟨l, windowCorr xc yc l⟩ := (Option.some_injective _ hentry).symm
      have hl0 : l = 0 := by rw [he'] at he0; exact he0
      rw [he', hl0]
      unfold windowCorr
      rw [shiftPair_zero]

/-- Closed witness for C3 on a concrete available pair. -/
theorem lag_zero_matches_unlagged_witness :
    ∃ r : Corr,
      (compute_correlations exampleX exampleY).pearson = some r ∧
      (⟨0, r⟩ : LagEntry) ∈ (compute_lagged_correlation exampleX exampleY 5).lag_profile ∧
      ∀ e ∈ (compute_lagged_correlation exampleX exampleY 5).lag_profile,
        e.lag = 0 → e.correlation = r :=
  lag_zero_matches_unlagged exampleX exampleY 5 (by decide) (by decide)

/-! ## `BatchComparisonAnalyzer.rank_batches` -/

/-- One ranking entry (`{"batch_id", "value", "rank", "normalized_score"}`). -/
structure Ranking where
  batch_id : String
  value : ℚ
  rank : ℕ
  normalized_score : ℚ
  deriving DecidableEq

/-- The comparison used by `rankings.sort(key=value, reverse=higher_is_better)`;
Python sorting is stable, which `List.insertionSort` with a non-strict
comparison reproduces. -/
def rankOrder (higher_is_better : Bool) (a b : String × ℚ) : Prop :=
  if higher_is_better then b.2 ≤ a.2 else a.2 ≤ b.2

instance (hib : Bool) : DecidableRel (rankOrder hib) := fun a b => by
  unfold rankOrder; infer_instance

instance (hib : Bool) : IsTotal (String × ℚ) (rankOrder hib) := by
  constructor
  intro a b
  unfold rankOrder
  cases hib <;> simp <;> exact le_total _ _

instance (hib : Bool) : IsTrans (String × ℚ) (rankOrder hib) := by
  constructor
  intro a b c h1 h2
  unfold rankOrder at *
  cases hib <;> simp at * <;> exact le_trans (by assumption) (by assumption)

/-- `BatchComparisonAnalyzer.rank_batches`: keep the batches that carry the
metric (in dict insertion order), sort by value (descending when
`higher_is_better`), then attach `rank = i+1` and
`normalized_score = 1 - i/N` (`1.0` when `N ≤ 1`). -/
def rank_batches (batch_metrics : List (String × List (String × ℚ)))
    (metric_key : String) (higher_is_better : Bool) : List Ranking :=
  let rankings := batch_metrics.filterMap
    (fun bm => (bm.2.lookup metric_key).map (fun v => (bm.1, v)))
  let sorted := rankings.insertionSort (rankOrder higher_is_better)
  let N := sorted.length
  sorted.enum.map (fun p =>
    { batch_id := p.2.1, value := p.2.2, rank := p.1 + 1
      normalized_score := if 1 < N then 1 - (p.1 : ℚ) / (N : ℚ) else 1 })

/-- C1 counterexample: two batches carrying metric `m` with values `2 > 1`.
The source assigns the second batch `normalized_score = 1 - 1/2 = 1/2`,
whereas the claimed formula `1 - (rank-1)/(N-1) = 1 - 1/1` yields `0`. -/
theorem rank_batches_score_counterexample :
    rank_batches [("A", [("m", 2)]), ("B", [("m", 1)])] "m" true =
      [⟨"A", 2, 1, 1⟩, ⟨"B", 1, 2, 1/2⟩] ∧
    ¬ ((1 : ℚ) / 2 = 1 - ((2 : ℚ) - 1) / ((2 : ℚ) - 1)) := by
  constructor
  · decide
  · norm_num

theorem length_filterMap_le {α β : Type} (f : α → Option β) (l : List α) :
    (l.filterMap f).length ≤ l.length := by
  induction l with
  | nil => simp
  | cons a t ih =>
    rw [List.filterMap_cons]
    cases f a <;> simp <;> omega

/-- C1 amended: ranking assigns ranks `1..N` in descending-value order, with
`normalized_score = 1 - (rank-1)/N` (denominator `N`, not `N-1`); hence rank 1
scores `1.0` (also when `N = 1`) and scores are non-increasing in rank. -/
theorem rank_batches_spec (batch_metrics : List (String × List (String × ℚ)))
    (metric_key : String) :
    (∀ i (h : i < (rank_batches batch_metrics metric_key true).length),
        ((rank_batches batch_metrics metric_key true).get ⟨i, h⟩).rank = i + 1 ∧
        ((rank_batches batch_metrics metric_key true).get ⟨i, h⟩).normalized_score =
          (if 1 < (rank_batches batch_metrics metric_key true).length then
            1 - (i : ℚ) / ((rank_batches batch_metrics metric_key true).length : ℚ)
          else 1)) ∧
    (∀ i j (hi : i < (rank_batches batch_metrics metric_key true).length)
        (hj : j < (rank_batches batch_metrics metric_key true).length), i ≤ j →
        ((rank_batches batch_metrics metric_key true).get ⟨j, hj⟩).value ≤
          ((rank_batches batch_metrics metric_key true).get ⟨i, hi⟩).value ∧
        ((rank_batches batch_metrics metric_key true).get ⟨j, hj⟩).normalized_score ≤
          ((rank_batches batch_metrics metric_key true).get ⟨i, hi⟩).normalized_score) ∧
    (∀ h : 0 < (rank_batches batch_metrics metric_key true).length,
        ((rank_batches batch_metrics metric_key true).get ⟨0, h⟩).normalized_score = 1) := by
  set rankings := batch_metrics.filterMap
    (fun bm => (bm.2.lookup metric_key).map (fun v => (bm.1, v))) with hr
  set sorted := rankings.insertionSort (rankOrder true) with hs
  have hout : rank_batches batch_metrics metric_key true =
      sorted.enum.map (fun p =>
        ({ batch_id := p.2.1, value := p.2.2, rank := p.1 + 1
           normalized_score :=
             if 1 < sorted.length then 1 - (p.1 : ℚ) / (sorted.length : ℚ) else 1 }
         : Ranking)) := rfl
  have hlen : (rank_batches batch_metrics metric_key true).length = sorted.length := by
    rw [hout]; simp
  have hget : ∀ i (h : i < sorted.length),
      ∀ (h2 : i < (rank_batches batch_metrics metric_key true).length),
      (rank_batches batch_metrics metric_key true).get ⟨i, h2⟩ =
        { batch_id := (sorted.get ⟨i, h⟩).1
          value := (sorted.get ⟨i, h⟩).2
          rank := i + 1
          normalized_score :=
            if 1 < sorted.length then 1 - (i : ℚ) / (sorted.length : ℚ) else 1 } := by
    intro i h h2
    rw [List.get_of_eq hout ⟨i, h2⟩]
    simp only [Fin.cast_mk, List.get_eq_getElem, List.getElem_map]
    rw [List.getElem_enum]
  have hsorted : List.Sorted (rankOrder true) sorted :=
    List.sorted_insertionSort (rankOrder true) rankings
  refine ⟨?_, ?_, ?_⟩
  · intro i h
    have hi' : i < sorted.length := by rw [hlen] at h; exact h
    rw [hget i hi' h]
    refine ⟨rfl, ?_⟩
    simp only [hlen]
  · intro i j hi hj hij
    have hi' : i < sorted.length := by rw [hlen] at hi; exact hi
    have hj' : j < sorted.length := by rw [hlen] at hj; exact hj
    rw [hget i hi' hi, hget j hj' hj]
    constructor
    · show (sorted.get ⟨j, hj'⟩).2 ≤ (sorted.get ⟨i, hi'⟩).2
      rcases Nat.lt_or_ge i j with hlt | hge
      · have := List.pairwise_iff_get.mp hsorted ⟨i, hi'⟩ ⟨j, hj'⟩ hlt
        simpa [rankOrder] using this
      · have hij' : i = j := by omega
        subst hij'
        exact le_refl _
    · by_cases h1 : 1 < sorted.length
      · simp only [if_pos h1]
        have hN0 : (0 : ℚ) ≤ 1 / (sorted.length : ℚ) := by positivity
        have hijq : (i : ℚ) ≤ (j : ℚ) := by exact_mod_cast hij
        have hstep : (i : ℚ) * (1 / (sorted.length : ℚ)) ≤
            (j : ℚ) * (1 / (sorted.length : ℚ)) :=
          mul_le_mul_of_nonneg_right hijq hN0
        have hdiv : (i : ℚ) / (sorted.length : ℚ) ≤ (j : ℚ) / (sorted.length : ℚ) := by
          calc (i : ℚ) / (sorted.length : ℚ) = (i : ℚ) * (1 / (sorted.length : ℚ)) := by ring
            _ ≤ (j : ℚ) * (1 / (sorted.length : ℚ)) := hstep
            _ = (j : ℚ) / (sorted.length : ℚ) := by ring
        linarith [hdiv]
      · simp only [if_neg h1]
        exact le_refl 1
  · intro h
    have h0 : 0 < sorted.length := by rw [hlen] at h; exact h
    rw [hget 0 h0 h]
    by_cases h1 : 1 < sorted.length
    · simp only [if_pos h1]
      norm_num
    · simp only [if_neg h1]

/-- Closed witness for the amended C1 on a three-batch input. -/
theorem rank_batches_spec_witness :
    ((rank_batches [("A", [("m", 2)]), ("B", [("m", 7)]), ("C", [("m", 1)])] "m" true).get
        ⟨0, by decide⟩).normalized_score = 1 ∧
    ((rank_batches [("A", [("m", 2)]), ("B", [("m", 7)]), ("C", [("m", 1)])] "m" true).get
        ⟨2, by decide⟩).rank = 3 ∧
    ((rank_batches [("A", [("m", 2)]), ("B", [("m", 7)]), ("C", [("m", 1)])] "m" true).get
        ⟨2, by decide⟩).value ≤
      ((rank_batches [("A", [("m", 2)]), ("B", [("m", 7)]), ("C", [("m", 1)])] "m" true).get
        ⟨1, by decide⟩).value := by
  have h := rank_batches_spec [("A", [("m", 2)]), ("B", [("m", 7)]), ("C", [("m", 1)])] "m"
  exact ⟨h.2.2 (by decide), (h.1 2 (by decide)).1,
    (h.2.1 1 2 (by decide) (by decide) (by omega)).1⟩

/-! ## `GlobalMetricsAnalyzer.compute_batch_trend` -/

/-- The `x = np.arange(n)` regressor of the sequential batch trend. -/
def olsXs (n : ℕ) : List ℚ := (List.range n).map (fun i : ℕ => (i : ℚ))

/-- `n²` times the covariance of `arange(n)` and `values`
(the common positive factor `n²` cancels in slope and `r²`). -/
def olsCov (values : List ℚ) : ℚ :=
  (values.length : ℚ) * sumMul (olsXs values.length) values
    - (olsXs values.length).sum * values.sum

/-- `n²` times the variance of the regressor. -/
def olsVarX (values : List ℚ) : ℚ := varRep (olsXs values.length)

/-- `n²` times the variance of the response. -/
def olsVarY (values : List ℚ) : ℚ := varRep values

/-- The OLS slope of `scipy.stats.linregress(arange(n), values)`. -/
def olsSlope (values : List ℚ) : ℚ := olsCov values / olsVarX values

/-- `r²` of the same regression; `scipy.stats.linregress` defines `r = 0`
when either sum of squares is zero. -/
def olsRsq (values : List ℚ) : ℚ :=
  if olsVarX values = 0 ∨ olsVarY values = 0 then 0
  else olsCov values ^ 2 / (olsVarX values * olsVarY values)

/-- Population variance (`np.std(values)**2`, `ddof = 0`), the square
representation of the reported `std_value`. -/
def popVar (l : List ℚ) : ℚ :=
  (l.map (fun v => (v - l.sum / (l.length : ℚ)) ^ 2)).sum / (l.length : ℚ)

/-- Result of `GlobalMetricsAnalyzer.compute_batch_trend`; the standard
deviation is carried by its square `std_sq_value`, and the p-value (an
irrational special function of `r` and `n`) is not modelled — no claim
refers to it. -/
structure BatchTrend where
  available : Bool
  trend : Option String
  slope : Option ℚ
  r_squared : Option ℚ
  mean_value : Option ℚ
  std_sq_value : Option ℚ
  deriving DecidableEq

/-- The metric values collected in original batch-encounter order
(`for batch_id in batch_order: if batch_id in batch_metrics and
metric_key in batch_metrics[batch_id]`). -/
def trendValues (batch_metrics : List (String × List (String × ℚ)))
    (metric_key : String) (batch_order : List String) : List ℚ :=
  batch_order.filterMap
    (fun b => (batch_metrics.lookup b).bind (fun ms => ms.lookup metric_key))

/-- `GlobalMetricsAnalyzer.compute_batch_trend`: needs at least 3 batches with
the metric; classifies `stable` when `|r| < 0.3` (i.e. `r² < 0.09`), else by
the sign of the slope. -/
def compute_batch_trend (batch_metrics : List (String × List (String × ℚ)))
    (metric_key : String) (batch_order : List String) : BatchTrend :=
  let values := trendValues batch_metrics metric_key batch_order
  if values.length < 3 then
    { available := false, trend := none, slope := none, r_squared := none
      mean_value := none, std_sq_value := none }
  else
    { available := true
      trend := some (if olsRsq values < 9 / 100 then "stable"
        else if 0 < olsSlope values then "improving" else "degrading")
      slope := some (olsSlope values)
      r_squared := some (olsRsq values)
      mean_value := some (values.sum / (values.length : ℚ))
      std_sq_value := some (popVar values) }

/-- C7: the sequential batch trend reports `available: false` with fewer than
3 batches supplying the metric; with at least 3 it is available and
classifies `stable` when `r² < 0.09` (`|r| < 0.3`), else `improving` for a
positive slope, else `degrading`. -/
theorem compute_batch_trend_spec (batch_metrics : List (String × List (String × ℚ)))
    (metric_key : String) (batch_order : List String) :
    ((trendValues batch_metrics metric_key batch_order).length < 3 →
      (compute_batch_trend batch_metrics metric_key batch_order).available = false) ∧
    (3 ≤ (trendValues batch_metrics metric_key batch_order).length →
      (compute_batch_trend batch_metrics metric_key batch_order).available = true ∧
      (compute_batch_trend batch_metrics metric_key batch_order).trend =
        some (if olsRsq (trendValues batch_metrics metric_key batch_order) < 9 / 100
          then "stable"
          else if 0 < olsSlope (trendValues batch_metrics metric_key batch_order)
          then "improving" else "degrading")) := by
  constructor
  · intro hshort
    unfold compute_batch_trend
    simp only [if_pos hshort]
  · intro hlong
    unfold compute_batch_trend
    simp only [if_neg (by omega : ¬ (trendValues batch_metrics metric_key batch_order).length < 3)]
    exact ⟨by simp, by simp⟩

/-- Closed witness for C7: two batches (the spec's `[B1, B2]` scenario) are
not enough; three batches with increasing integrated values classify as
`improving`. -/
theorem compute_batch_trend_spec_witness :
    (compute_batch_trend [("B1", [("integrated_value", 10)]), ("B2", [("integrated_value", 12)])]
      "integrated_value" ["B1", "B2"]).available = false ∧
    (compute_batch_trend
      [("B1", [("integrated_value", 1)]), ("B2", [("integrated_value", 2)]),
       ("B3", [("integrated_value", 4)])]
      "integrated_value" ["B1", "B2", "B3"]).trend = some "improving" := by
  constructor
  · exact (compute_batch_trend_spec
      [("B1", [("integrated_value", 10)]), ("B2", [("integrated_value", 12)])]
      "integrated_value" ["B1", "B2"]).1 (by decide)
  · have h := (compute_batch_trend_spec
      [("B1", [("integrated_value", 1)]), ("B2", [("integrated_value", 2)]),
       ("B3", [("integrated_value", 4)])]
      "integrated_value" ["B1", "B2", "B3"]).2 (by decide)
    rw [h.2]
    decide

/-! ## Dataset model

A `pandas.DataFrame` fragment sufficient for `DatasetAnalyzer`: named columns
of cells that are missing (`NaN`), numeric, or textual.  The frame is
rectangular (every column has the row count of the frame); definitions that
use the source's `len(self.df)` read the length of the column at hand, which
agrees on rectangular frames. -/

/-- One cell of the raw table. -/
inductive Cell where
  | null : Cell
  | num (q : ℚ) : Cell
  | str (s : String) : Cell
  deriving DecidableEq

/-- A named column. -/
structure Column where
  name : String
  cells : List Cell
  deriving DecidableEq

/-- `pd.api.types.is_numeric_dtype`: a parsed CSV column has numeric dtype
exactly when no cell is textual. -/
def isNumericDtype (c : Column) : Bool :=
  c.cells.all (fun v => match v with | .str _ => false | _ => true)

/-- `pd.api.types.is_float_dtype`: `read_csv` yields `int64` when every cell
is a whole number and none is missing, and `float64` for any other numeric
column. -/
def isFloatDtype (c : Column) : Bool :=
  isNumericDtype c &&
    (c.cells.any (fun v => v = Cell.null) ||
     c.cells.any (fun v => match v with | .num q => decide (q.den ≠ 1) | _ => false))

/-- ASCII lower-casing of one character (`str.lower` on the ASCII names the
pipeline's keyword matching concerns). -/
def lowerChar (c : Char) : Char :=
  if 'A' ≤ c ∧ c ≤ 'Z' then Char.ofNat (c.toNat + 32) else c

def isWsChar (c : Char) : Bool := c = ' ' || c = '\t' || c = '\n' || c = '\r'

/-- `str.strip()`. -/
def trimChars (l : List Char) : List Char :=
  ((l.dropWhile isWsChar).reverse.dropWhile isWsChar).reverse

/-- `col.lower().strip()`, the normalised column name used by role
inference. -/
def normName (s : String) : List Char := trimChars (s.toList.map lowerChar)

def isPrefixChars : List Char → List Char → Bool
  | [], _ => true
  | _ :: _, [] => false
  | a :: t, b :: u => a = b && isPrefixChars t u

/-- Python's substring test `needle in hay`. -/
def containsChars (needle : List Char) : List Char → Bool
  | [] => isPrefixChars needle []
  | a :: t => isPrefixChars needle (a :: t) || containsChars needle t

def time_keywords : List (List Char) :=
  ["time", "timestamp", "date", "hour", "minute", "t", "elapsed", "duration"].map
    String.toList

def batch_keywords : List (List Char) :=
  ["batch", "run", "experiment", "lot", "id", "sample", "replicate"].map String.toList

/-- `any(kw in col_lower for kw in batch_keywords)`. -/
def batchNameMatch (c : Column) : Bool :=
  batch_keywords.any (fun kw => containsChars kw (normName c.name))

/-- `any(kw == col_lower or kw in col_lower for kw in time_keywords)`. -/
def timeNameMatch (c : Column) : Bool :=
  time_keywords.any (fun kw => kw == normName c.name || containsChars kw (normName c.name))

def digitsVal (l : List Char) : ℕ := l.foldl (fun a c => a * 10 + (c.toNat - 48)) 0

/-- Modelled from `pd.to_numeric(..., errors='coerce')` on one string cell:
an optional sign followed by decimal digits with an optional fractional part
parses to its rational value; anything else (including the exponent and
special-float forms, which no claim exercises) coerces to missing. -/
def parseNumQ (s : String) : Option ℚ :=
  let cs := trimChars s.toList
  let sgn : ℚ := match cs with | '-' :: _ => -1 | _ => 1
  let ds : List Char := match cs with
    | '-' :: t => t
    | '+' :: t => t
    | _ => cs
  let ip := ds.takeWhile (fun c => c ≠ '.')
  let rest := ds.dropWhile (fun c => c ≠ '.')
  match rest with
  | [] =>
    if ip ≠ [] ∧ ip.all Char.isDigit then some (sgn * (digitsVal ip : ℚ)) else none
  | _ :: fp =>
    if fp.any (fun c => c = '.') then none
    else if ip = [] ∧ fp = [] then none
    else if ip.all Char.isDigit ∧ fp.all Char.isDigit then
      some (sgn * ((digitsVal ip : ℚ) + (digitsVal fp : ℚ) / (10 ^ fp.length : ℚ)))
    else none

/-- `pd.to_numeric(errors='coerce')` on one cell. -/
def cellToNumeric : Cell → Option ℚ
  | .null => none
  | .num q => some q
  | .str s => parseNumQ s

/-- The numeric-coercion step of `_infer_columns`: convert a non-numeric
column when strictly more than half of its values parse
(`converted.notna().sum() > len(self.df) * 0.5`). -/
def coerceColumn (c : Column) : Column :=
  if isNumericDtype c then c
  else
    let conv := c.cells.map cellToNumeric
    if c.cells.length < 2 * conv.countP Option.isSome then
      { name := c.name
        cells := conv.map (fun o => match o with | some q => Cell.num q | none => Cell.null) }
    else c

/-- Successive differences (`series.diff().dropna()`). -/
def diffsQ (l : List ℚ) : List ℚ := (l.zip l.tail).map (fun p => p.2 - p.1)

/-- `DatasetAnalyzer._is_monotonic_numeric`: at least 2 valid points and at
least 95 % non-negative successive differences
(`(diffs >= 0).mean() > 0.95`). -/
def isMonotonicNumeric (c : Column) : Bool :=
  let d := (c.cells.map cellToNumeric).reduceOption
  if d.length < 2 then false
  else
    let ds := diffsQ d
    decide (95 * ds.length < 100 * ds.countP (fun q => decide (0 ≤ q)))

/-- `Series.unique()` order: first occurrences. -/
def uniqueOrder (l : List Cell) : List Cell :=
  l.foldl (fun acc v => if v ∈ acc then acc else acc ++ [v]) []

/-- `DatasetAnalyzer._is_batch_like`: not float-typed, between 2 and 10 % of
the row count distinct non-null values (`nunique` ignores nulls), and every
value repeated more than 5 times. -/
def is_batch_like (c : Column) : Bool :=
  if isFloatDtype c then false
  else
    let nonNull := c.cells.filter (fun v => decide (v ≠ Cell.null))
    let uniq := uniqueOrder nonNull
    let u := uniq.length
    let total := c.cells.length
    if 10 * u < total ∧ 1 < u then
      match (uniq.map (fun v => nonNull.count v)).min? with
      | some m => decide (5 < m)
      | none => false
    else false

/-- Batch-column selection: first keyword match in file order, else first
pattern match. -/
def inferBatch (df : List Column) : Option Column :=
  (df.find? batchNameMatch).orElse (fun _ => df.find? is_batch_like)

/-- The dataframe after the in-place numeric coercion (which skips the batch
column, compared by name as the source does). -/
def coercedDf (df : List Column) : List Column :=
  let bname := (inferBatch df).map Column.name
  df.map (fun c => if bname = some c.name then c else coerceColumn c)

/-- The time-column predicate: a time keyword in the name, and either numeric
dtype (after coercion) or the monotonicity test. -/
def timePred (c : Column) : Bool :=
  timeNameMatch c && (isNumericDtype c || isMonotonicNumeric c)

/-- Time-column selection: first non-batch column of the coerced frame
passing `timePred`. -/
def inferTime (df : List Column) : Option Column :=
  let bname := (inferBatch df).map Column.name
  (coercedDf df).find? (fun c => decide (¬ bname = some c.name) && timePred c)

/-- The result of `DatasetAnalyzer._infer_columns` (together with the mutated
dataframe). -/
structure Inferred where
  df : List Column
  batch : Option Column
  time : Option Column
  numeric : List Column
  categorical : List Column
  deriving DecidableEq

/-- `DatasetAnalyzer._infer_columns`. -/
def inferColumns (df0 : List Column) : Inferred :=
  let b := inferBatch df0
  let bname := b.map Column.name
  let t := inferTime df0
  let tname := t.map Column.name
  let df1 := coercedDf df0
  { df := df1
    batch := b
    time := t
    numeric := df1.filter (fun c =>
      decide (¬ some c.name = tname) && decide (¬ some c.name = bname) && isNumericDtype c)
    categorical := df1.filter (fun c =>
      decide (¬ some c.name = tname) && decide (¬ some c.name = bname) && !(isNumericDtype c)) }

/-! ### C9: order (in)dependence of role inference -/

/-- Two columns that both carry a batch keyword in their names. -/
def dupRunA : Column := { name := "run_a", cells := [Cell.num 1, Cell.num 2] }

/-- Second batch-keyword column. -/
def dupRunB : Column := { name := "run_b", cells := [Cell.num 3, Cell.num 4] }

/-- C9 counterexample: with two batch-keyword columns, the first in file
order is selected, so permuting the columns changes the selected batch
column. -/
theorem infer_columns_order_counterexample :
    List.Perm [dupRunA, dupRunB] [dupRunB, dupRunA] ∧
    (inferColumns [dupRunA, dupRunB]).batch = some dupRunA ∧
    (inferColumns [dupRunB, dupRunA]).batch = some dupRunB ∧
    ¬ (inferColumns [dupRunA, dupRunB]).batch = (inferColumns [dupRunB, dupRunA]).batch := by
  refine ⟨?_, by decide, by decide, by decide⟩
  decide

theorem two_le_length_of_mem_ne {α : Type} {l : List α} {a b : α}
    (ha : a ∈ l) (hb : b ∈ l) (hne : a ≠ b) : 2 ≤ l.length := by
  induction l with
  | nil => simp at ha
  | cons c t ih =>
    rcases List.mem_cons.mp ha with rfl | hat
    · rcases List.mem_cons.mp hb with rfl | hbt
      · exact absurd rfl hne
      · have hpos : 0 < t.length := List.length_pos_of_mem hbt
        simp only [List.length_cons]
        omega
    · rcases List.mem_cons.mp hb with rfl | hbt
      · have hpos : 0 < t.length := List.length_pos_of_mem hat
        simp only [List.length_cons]
        omega
      · have := ih hat hbt
        simp only [List.length_cons]
        omega

theorem countP_unique_mem {α : Type} {p : α → Bool} {l : List α}
    (h : l.countP p ≤ 1) {a b : α} (ha : a ∈ l) (hb : b ∈ l)
    (pa : p a = true) (pb : p b = true) : a = b := by
  by_contra hne
  have ha' : a ∈ l.filter p := List.mem_filter.mpr ⟨ha, pa⟩
  have hb' : b ∈ l.filter p := List.mem_filter.mpr ⟨hb, pb⟩
  have h2 := two_le_length_of_mem_ne ha' hb' hne
  rw [List.countP_eq_length_filter] at h
  omega

/-- A first-match scan is permutation-invariant when at most one element
satisfies the predicate. -/
theorem find?_perm_unique {α : Type} {p : α → Bool} {l1 l2 : List α}
    (hperm : List.Perm l1 l2) (h : l1.countP p ≤ 1) : l1.find? p = l2.find? p := by
  cases h1 : l1.find? p with
  | none =>
    have hnone := List.find?_eq_none.mp h1
    exact (List.find?_eq_none.mpr (fun x hx => hnone x (hperm.mem_iff.mpr hx))).symm
  | some a =>
    have pa : p a = true := List.find?_some h1
    have ha : a ∈ l1 := List.mem_of_find?_eq_some h1
    cases h2 : l2.find? p with
    | none =>
      have hnone := List.find?_eq_none.mp h2
      exact absurd pa (hnone a (hperm.mem_iff.mp ha))
    | some b =>
      have pb : p b = true := List.find?_some h2
      have hb : b ∈ l1 := hperm.mem_iff.mpr (List.mem_of_find?_eq_some h2)
      rw [countP_unique_mem h ha hb pa pb]

/-- C9 amended: role inference is permutation-invariant whenever each
selection predicate has at most one satisfying column — at most one
batch-keyword name, at most one pattern-detected batch candidate, and at most
one time candidate; with several tied candidates the first in column order
wins (as the counterexample shows), which is the one positional dependence. -/
theorem infer_columns_perm_spec (df1 df2 : List Column)
    (hperm : List.Perm df1 df2)
    (hb1 : df1.countP batchNameMatch ≤ 1)
    (hb2 : df1.countP is_batch_like ≤ 1)
    (ht : (coercedDf df1).countP
        (fun c => decide (¬ (inferBatch df1).map Column.name = some c.name) && timePred c)
      ≤ 1) :
    (inferColumns df1).batch = (inferColumns df2).batch ∧
    (inferColumns df1).time = (inferColumns df2).time := by
  have hbatch : inferBatch df1 = inferBatch df2 := by
    unfold inferBatch
    rw [find?_perm_unique hperm hb1, find?_perm_unique hperm hb2]
  have hcoerce : coercedDf df2 =
      df2.map (fun c => if (inferBatch df1).map Column.name = some c.name then c
        else coerceColumn c) := by
    unfold coercedDf
    rw [hbatch]
  have hcoerce1 : coercedDf df1 =
      df1.map (fun c => if (inferBatch df1).map Column.name = some c.name then c
        else coerceColumn c) := rfl
  have hpermc : List.Perm (coercedDf df1) (coercedDf df2) := by
    rw [hcoerce, hcoerce1]
    exact hperm.map _
  have htime : inferTime df1 = inferTime df2 := by
    unfold inferTime
    rw [← hbatch]
    exact find?_perm_unique hpermc ht
  exact ⟨hbatch, htime⟩

/-- Closed witness for the amended C9: a `Batch`/`Hour`/`PV` frame and its
reversal select the same batch and time columns. -/
theorem infer_columns_perm_spec_witness :
    ((inferColumns [⟨"Batch", [Cell.str "B1", Cell.str "B1", Cell.str "B2"]⟩,
        ⟨"Hour", [Cell.num 1, Cell.num 2, Cell.num 3]⟩,
        ⟨"PV", [Cell.num 5, Cell.num 6, Cell.num 7]⟩]).batch =
      (inferColumns [⟨"PV", [Cell.num 5, Cell.num 6, Cell.num 7]⟩,
        ⟨"Hour", [Cell.num 1, Cell.num 2, Cell.num 3]⟩,
        ⟨"Batch", [Cell.str "B1", Cell.str "B1", Cell.str "B2"]⟩]).batch) ∧
    ((inferColumns [⟨"Batch", [Cell.str "B1", Cell.str "B1", Cell.str "B2"]⟩,
        ⟨"Hour", [Cell.num 1, Cell.num 2, Cell.num 3]⟩,
        ⟨"PV", [Cell.num 5, Cell.num 6, Cell.num 7]⟩]).time =
      (inferColumns [⟨"PV", [Cell.num 5, Cell.num 6, Cell.num 7]⟩,
        ⟨"Hour", [Cell.num 1, Cell.num 2, Cell.num 3]⟩,
        ⟨"Batch", [Cell.str "B1", Cell.str "B1", Cell.str "B2"]⟩]).time) :=
  infer_columns_perm_spec _ _ (by decide) (by decide) (by decide) (by decide)

/-! ## `DataQualityAnalyzer` -/

/-- `values.astype(float)` view of a numeric-dtype column (string cells do
not occur in numeric columns; defensively mapped to missing). -/
def colVals (c : Column) : List (Option ℚ) :=
  c.cells.map (fun v => match v with | .num q => some q | _ => none)

/-- `DataQualityAnalyzer.compute_missing_percentage`. -/
def compute_missing_percentage (vals : List (Option ℚ)) : ℚ :=
  (vals.countP Option.isNone : ℚ) / (vals.length : ℚ) * 100

/-- The density dictionary (`type`, `density`, optional `reason` /
`zero_pct`). -/
structure Density where
  type : String
  density : ℚ
  reason : Option String
  zero_pct : Option ℚ
  deriving DecidableEq

/-- `DataQualityAnalyzer.classify_signal_density`. -/
def classify_signal_density (vals : List (Option ℚ)) (missing_pct : ℚ) : Density :=
  let valid := vals.countP Option.isSome
  let total := vals.length
  if total = 0 then { type := "empty", density := 0, reason := none, zero_pct := none }
  else
    let density : ℚ := (valid : ℚ) / (total : ℚ)
    if 70 < missing_pct then
      { type := "sparse", density := density, reason := some "high_missing", zero_pct := none }
    else if 30 < missing_pct then
      { type := "intermittent", density := density
        reason := some "moderate_missing", zero_pct := none }
    else
      let nonNull := vals.reduceOption
      let zero_pct : ℚ :=
        (nonNull.countP (fun q => decide (q = 0)) : ℚ) / (nonNull.length : ℚ) * 100
      if nonNull.length ≠ 0 ∧ 50 < zero_pct then
        { type := "offline", density := density, reason := none, zero_pct := some zero_pct }
      else
        { type := "continuous", density := density, reason := none, zero_pct := none }

def maxQ (l : List ℚ) : ℚ := match l with | [] => 0 | a :: t => t.foldl max a

def minQ (l : List ℚ) : ℚ := match l with | [] => 0 | a :: t => t.foldl min a

/-- `series.mean()` over non-null values. -/
def sampleMean (l : List ℚ) : ℚ := l.sum / (l.length : ℚ)

/-- The square of `series.std()` (sample standard deviation, `ddof = 1`);
standard deviations are irrational, so they are carried as squares and every
comparison of the source is translated to the equivalent squared form. -/
def sampleVar (l : List ℚ) : ℚ :=
  (l.map (fun v => (v - sampleMean l) ^ 2)).sum / ((l.length : ℚ) - 1)

/-- The flatline dictionary: `flatline_pct` is present only in the
short-input and zero-range branches, `cv`/`relative_range` only in the
near-flatline branch, exactly as the source's dictionaries; `cv` is carried
squared. -/
structure Flatline where
  is_flatlined : Bool
  flatline_pct : Option ℚ
  constant_value : Option ℚ
  cv_sq : Option ℚ
  relative_range : Option ℚ
  deriving DecidableEq

/-- `DataQualityAnalyzer.detect_flatline`.  The near-flatline test
`cv < 0.001 and relative_range < 0.01` (with `cv = std/|mean|` when
`|mean| > 0`, else `0`) becomes `10⁶·var < mean²` on squares. -/
def detect_flatline (vals : List (Option ℚ)) : Flatline :=
  let data := vals.reduceOption
  if data.length < 2 then
    { is_flatlined := false, flatline_pct := some 0, constant_value := none
      cv_sq := none, relative_range := none }
  else
    let range := maxQ data - minQ data
    if range = 0 then
      { is_flatlined := true, flatline_pct := some 100, constant_value := some data.headI
        cv_sq := none, relative_range := none }
    else
      let m := |sampleMean data|
      let v := sampleVar data
      let cvSq : ℚ := if 0 < m then v / m ^ 2 else 0
      let rr : ℚ := if 0 < m then range / m else range
      { is_flatlined :=
          (if 0 < m then decide (1000000 * v < m ^ 2) else true) && decide (rr < 1 / 100)
        flatline_pct := none, constant_value := none
        cv_sq := some cvSq, relative_range := some rr }

/-- The `stats` block of a quality entry (`std` carried squared; a
single-point series, whose float `std()` is NaN rather than `None`, is not
distinguished — no claim touches it). -/
structure StatsBlock where
  mean : Option ℚ
  std_sq : Option ℚ
  min : Option ℚ
  max : Option ℚ
  deriving DecidableEq

/-- The per-variable `stats` dictionary of `_analyze_quality`: every field is
`None` exactly when the series is entirely null. -/
def statsBlock (vals : List (Option ℚ)) : StatsBlock :=
  if vals.all Option.isNone then { mean := none, std_sq := none, min := none, max := none }
  else
    let data := vals.reduceOption
    { mean := some (sampleMean data), std_sq := some (sampleVar data)
      min := some (minQ data), max := some (maxQ data) }

/-- The sampling dictionary.  `regularity_score = max(0, 1 - min(1, cv))` is
an irrational, strictly-decreasing function of `cv` (up to saturation), so the
block carries `cv²` exactly instead; `is_regular` (`regularity > 0.5`,
i.e. `cv < 1/2`, i.e. `4·var < mean²`) is kept as the source's boolean. -/
structure Sampling where
  available : Bool
  mean_interval : Option ℚ
  std_sq_interval : Option ℚ
  min_interval : Option ℚ
  max_interval : Option ℚ
  cv_sq : Option ℚ
  is_regular : Option Bool
  deriving DecidableEq

def sortQ (l : List ℚ) : List ℚ := l.insertionSort (fun a b => a ≤ b)

/-- The unavailable sampling block. -/
def samplingUnavailable : Sampling :=
  { available := false, mean_interval := none, std_sq_interval := none
    min_interval := none, max_interval := none, cv_sq := none, is_regular := none }

/-- `DataQualityAnalyzer.compute_sampling_stats`: positive successive time
deltas, within each batch independently when a batch series is given
(`batch_col.unique()` iterates first occurrences; the `NaN` batch value
matches no row since `NaN == NaN` is false). -/
def computeSamplingStats (time : List (Option ℚ)) (batch : Option (List Cell)) : Sampling :=
  if time.all Option.isNone ∨ time.length < 2 then samplingUnavailable
  else
    let intervals : List ℚ :=
      match batch with
      | some bc =>
        (uniqueOrder bc).flatMap (fun v =>
          if v = Cell.null then []
          else
            let bt := sortQ ((time.zip bc).filterMap
              (fun p => if p.2 = v then p.1 else none))
            (diffsQ bt).filter (fun q => decide (0 < q)))
      | none => (diffsQ (sortQ time.reduceOption)).filter (fun q => decide (0 < q))
    if intervals.length = 0 then samplingUnavailable
    else
      let mean := intervals.sum / (intervals.length : ℚ)
      let v : ℚ := if 1 < intervals.length then sampleVar intervals else 0
      { available := true
        mean_interval := some mean
        std_sq_interval := some v
        min_interval := some (minQ intervals)
        max_interval := some (maxQ intervals)
        cv_sq := some (if 0 < mean then v / mean ^ 2 else 0)
        is_regular := some (if 0 < mean then decide (4 * v < mean ^ 2) else true) }

/-- One entry of the quality report (the source's `"variable"` key is
`var_name`: `variable` is reserved in Lean). -/
structure VarQuality where
  var_name : String
  missing_pct : ℚ
  density : Density
  flatline : Flatline
  sampling : Sampling
  stats : StatsBlock
  deriving DecidableEq

/-- Row count of the frame (`len(self.df)`; rectangular). -/
def nrows (df : List Column) : ℕ := (df.head?.map (fun c => c.cells.length)).getD 0

/-- The shared time series of `_analyze_quality`
(`pd.to_numeric(df[time_col])`, or `range(len(df))` without a time column). -/
def timeSeriesOf (inf : Inferred) (n : ℕ) : List (Option ℚ) :=
  match inf.time with
  | some t => t.cells.map cellToNumeric
  | none => (List.range n).map (fun i : ℕ => some (i : ℚ))

/-- The shared batch series of `_analyze_quality`. -/
def batchSeriesOf (inf : Inferred) : Option (List Cell) := inf.batch.map Column.cells

/-- One iteration of the `for col in self.numeric_cols` loop of
`_analyze_quality`. -/
def mkVarQuality (timeS : List (Option ℚ)) (batchS : Option (List Cell))
    (c : Column) : VarQuality :=
  let vals := colVals c
  let missing := compute_missing_percentage vals
  { var_name := c.name
    missing_pct := missing
    density := classify_signal_density vals missing
    flatline := detect_flatline vals
    sampling := computeSamplingStats timeS batchS
    stats := statsBlock vals }

/-- The `overall` block (`_compute_overall_quality`).  `regularity_score <
0.3` is `cv > 0.7`, i.e. `cv² > 0.49` on the squared representation. -/
structure QualityOverall where
  score : ℚ
  flags : List String
  deriving DecidableEq

def compute_overall_quality (vq : List VarQuality) : QualityOverall :=
  if vq.length = 0 then { score := 0, flags := ["no_data"] }
  else
    let avgMissing := (vq.map VarQuality.missing_pct).sum / (vq.length : ℚ)
    let missPen : ℚ := if 20 < avgMissing then 20 else if 5 < avgMissing then 5 else 0
    let missFlags : List String :=
      if 20 < avgMissing then ["high_missing_data"]
      else if 5 < avgMissing then ["moderate_missing_data"] else []
    let samp := (vq.head?.map VarQuality.sampling).getD samplingUnavailable
    let sampBad := samp.available && decide (49 / 100 < samp.cv_sq.getD 0)
    let sampPen : ℚ := if sampBad then 10 else 0
    let sampFlags : List String := if sampBad then ["irregular_sampling"] else []
    let flatCount := vq.countP (fun v => v.flatline.is_flatlined)
    let flatPen : ℚ := if 0 < flatCount then 3 * (min flatCount 5 : ℕ) else 0
    let flatFlags : List String :=
      if 0 < flatCount then ["flatlined_signals:" ++ toString flatCount] else []
    let offCount := vq.countP (fun v => v.density.type == "offline")
    let offFlags : List String :=
      if 0 < offCount then ["offline_signals:" ++ toString offCount] else []
    { score := max 0 (min 100 (100 - missPen - sampPen - flatPen))
      flags := missFlags ++ sampFlags ++ flatFlags ++ offFlags }

structure QualityReport where
  vars : List VarQuality
  overall : QualityOverall
  deriving DecidableEq

/-- `DatasetAnalyzer._analyze_quality`. -/
def analyzeQuality (df0 : List Column) : QualityReport :=
  let inf := inferColumns df0
  let timeS := timeSeriesOf inf (nrows df0)
  let batchS := batchSeriesOf inf
  let entries := inf.numeric.map (mkVarQuality timeS batchS)
  { vars := entries, overall := compute_overall_quality entries }

/-! ### C4: flatline on zero range -/

/-- C4 counterexample: a column with exactly one non-null value has
`range(non-null values) = 0`, yet `detect_flatline` reports
`is_flatlined = false` with `flatline_pct = 0` (the `len < 2` guard fires
before the zero-range branch). -/
theorem detect_flatline_counterexample :
    ([some (5 : ℚ)] : List (Option ℚ)).reduceOption.length = 1 ∧
    maxQ ([some (5 : ℚ)] : List (Option ℚ)).reduceOption -
      minQ ([some (5 : ℚ)] : List (Option ℚ)).reduceOption = 0 ∧
    (detect_flatline [some (5 : ℚ)]).is_flatlined = false ∧
    (detect_flatline [some (5 : ℚ)]).flatline_pct = some 0 := by
  decide

/-- C4 amended: for a column with at least **2** non-null values whose range
is exactly zero, flatline detection reports `is_flatlined = true` with
`flatline_pct = 100`. -/
theorem detect_flatline_spec (vals : List (Option ℚ))
    (hlen : 2 ≤ vals.reduceOption.length)
    (hrange : maxQ vals.reduceOption - minQ vals.reduceOption = 0) :
    (detect_flatline vals).is_flatlined = true ∧
    (detect_flatline vals).flatline_pct = some 100 := by
  unfold detect_flatline
  simp only [if_neg (by omega : ¬ vals.reduceOption.length < 2), if_pos hrange]
  exact ⟨by simp, by simp⟩

/-- Closed witness for the amended C4. -/
theorem detect_flatline_spec_witness :
    (detect_flatline [some (3 : ℚ), Option.none, some 3]).is_flatlined = true ∧
    (detect_flatline [some (3 : ℚ), Option.none, some 3]).flatline_pct = some 100 :=
  detect_flatline_spec [some (3 : ℚ), Option.none, some 3] (by decide) (by decide)

/-! ### C8: entirely-null column -/

/-- C8: every entirely-null numeric column of a non-empty frame appears in
the quality report with `missing_pct = 100`, density class `sparse`, and a
stats block whose four fields are all `None`. -/
theorem quality_all_null_spec (df0 : List Column) (c : Column)
    (hmem : c ∈ (inferColumns df0).numeric)
    (hnull : (colVals c).all Option.isNone = true)
    (hlen : 0 < c.cells.length) :
    mkVarQuality (timeSeriesOf (inferColumns df0) (nrows df0))
        (batchSeriesOf (inferColumns df0)) c ∈ (analyzeQuality df0).vars ∧
    (mkVarQuality (timeSeriesOf (inferColumns df0) (nrows df0))
        (batchSeriesOf (inferColumns df0)) c).missing_pct = 100 ∧
    (mkVarQuality (timeSeriesOf (inferColumns df0) (nrows df0))
        (batchSeriesOf (inferColumns df0)) c).density.type = "sparse" ∧
    (mkVarQuality (timeSeriesOf (inferColumns df0) (nrows df0))
        (batchSeriesOf (inferColumns df0)) c).stats =
      { mean := none, std_sq := none, min := none, max := none } := by
  have hvl : (colVals c).length = c.cells.length := by simp [colVals]
  have hcnt : (colVals c).countP Option.isNone = (colVals c).length := by
    rw [List.countP_eq_length]
    intro a ha
    exact List.all_eq_true.mp hnull a ha
  have hq : ((c.cells.length : ℚ)) ≠ 0 := by
    exact_mod_cast Nat.pos_iff_ne_zero.mp hlen
  have hmiss : compute_missing_percentage (colVals c) = 100 := by
    unfold compute_missing_percentage
    rw [hcnt, hvl]
    field_simp
  refine ⟨?_, ?_, ?_, ?_⟩
  · exact List.mem_map_of_mem _ hmem
  · show compute_missing_percentage (colVals c) = 100
    exact hmiss
  · show (classify_signal_density (colVals c) (compute_missing_percentage (colVals c))).type
      = "sparse"
    rw [hmiss]
    unfold classify_signal_density
    have htot : (colVals c).length ≠ 0 := by omega
    simp only [if_neg htot, if_pos (by norm_num : (70 : ℚ) < 100)]
  · show statsBlock (colVals c) = { mean := none, std_sq := none, min := none, max := none }
    unfold statsBlock
    simp only [hnull, if_pos]

/-- The witness frame: one entirely-null column (named with no role
keyword). -/
def allNullFrame : List Column := [⟨"Sensor", [Cell.null, Cell.null, Cell.null]⟩]

/-- Closed witness for C8. -/
theorem quality_all_null_spec_witness :
    (mkVarQuality (timeSeriesOf (inferColumns allNullFrame) (nrows allNullFrame))
        (batchSeriesOf (inferColumns allNullFrame))
        ⟨"Sensor", [Cell.null, Cell.null, Cell.null]⟩).missing_pct = 100 ∧
    (mkVarQuality (timeSeriesOf (inferColumns allNullFrame) (nrows allNullFrame))
        (batchSeriesOf (inferColumns allNullFrame))
        ⟨"Sensor", [Cell.null, Cell.null, Cell.null]⟩).density.type = "sparse" ∧
    (mkVarQuality (timeSeriesOf (inferColumns allNullFrame) (nrows allNullFrame))
        (batchSeriesOf (inferColumns allNullFrame))
        ⟨"Sensor", [Cell.null, Cell.null, Cell.null]⟩).stats =
      { mean := none, std_sq := none, min := none, max := none } := by
  have h := quality_all_null_spec allNullFrame
    ⟨"Sensor", [Cell.null, Cell.null, Cell.null]⟩ (by decide) (by decide) (by decide)
  exact ⟨h.2.1, h.2.2.1, h.2.2.2⟩

/-! ### C10: the sampling block is variable-independent -/

/-- C10: every entry of a quality report carries the same sampling block — it
is computed from the shared time series (or row index) and the batch series
only, never from the variable's own values. -/
theorem sampling_uniform_spec (df0 : List Column) (e1 e2 : VarQuality)
    (h1 : e1 ∈ (analyzeQuality df0).vars) (h2 : e2 ∈ (analyzeQuality df0).vars) :
    e1.sampling = computeSamplingStats (timeSeriesOf (inferColumns df0) (nrows df0))
        (batchSeriesOf (inferColumns df0)) ∧
    e1.sampling = e2.sampling := by
  have hv : (analyzeQuality df0).vars = (inferColumns df0).numeric.map
      (mkVarQuality (timeSeriesOf (inferColumns df0) (nrows df0))
        (batchSeriesOf (inferColumns df0))) := rfl
  rw [hv] at h1 h2
  obtain ⟨c1, _, h1e⟩ := List.mem_map.mp h1
  obtain ⟨c2, _, h2e⟩ := List.mem_map.mp h2
  rw [← h1e, ← h2e]
  exact ⟨rfl, rfl⟩

/-- The witness frame for C10: a time column and two numeric variables with
different values. -/
def twoVarFrame : List Column :=
  [⟨"Hour", [Cell.num 1, Cell.num 2]⟩,
   ⟨"PV", [Cell.num 5, Cell.num 9]⟩,
   ⟨"QV", [Cell.num 7, Cell.num 8]⟩]

/-- Closed witness for C10: the two variables' sampling blocks coincide. -/
theorem sampling_uniform_spec_witness :
    ((analyzeQuality twoVarFrame).vars.get ⟨0, by decide⟩).sampling =
      ((analyzeQuality twoVarFrame).vars.get ⟨1, by decide⟩).sampling :=
  (sampling_uniform_spec twoVarFrame _ _ (List.get_mem _ _ _) (List.get_mem _ _ _)).2

/-! ## `DatasetAnalyzer._analyze_relationships` -/

/-- One relationship entry. -/
structure Relationship where
  var_x : String
  var_y : String
  correlation : Correlations
  lagged_correlation : LaggedCorrelation
  cross_batch_stability : Stability
  deriving DecidableEq

/-- The unordered-pair enumeration of the two nested loops
(`for i, col_x in enumerate(cols)`, `for col_y in cols[i+1:]`). -/
def allPairs {α : Type} : List α → List (α × α)
  | [] => []
  | a :: t => t.map (fun b => (a, b)) ++ allPairs t

/-- One batch's rows of a value series
(`batch_df[col]` for `batch_df = df[df[batch_col] == v]`). -/
def batchMask (vals : List (Option ℚ)) (bc : List Cell) (v : Cell) : List (Option ℚ) :=
  (vals.zip bc).filterMap (fun p => if p.2 = v then some p.1 else none)

/-- The cross-batch stability branch of `_analyze_relationships`: per-batch
Pearson coefficients of batches with an available correlation; the block is
available iff at least two coefficients were collected (`NaN == NaN` is
false, so a missing batch value selects no rows and is skipped). -/
def mkStability (inf : Inferred) (cx cy : Column) : Stability :=
  match inf.batch with
  | none => { available := false, batch_correlations := [] }
  | some b =>
    let bcs := (uniqueOrder b.cells).filterMap (fun v =>
      if v = Cell.null then none
      else
        let bx := batchMask (colVals cx) b.cells v
        let byv := batchMask (colVals cy) b.cells v
        let bc := compute_correlations bx byv
        if bc.available then bc.pearson else none)
    { available := decide (2 ≤ bcs.length), batch_correlations := bcs }

/-- The sort key of the final `relationships.sort`: the source keys by
`abs(pearson r)` (`0` for an unavailable correlation, which the filter has
already removed); squaring is strictly monotone in `|r|`, so the exact key
`num²/den2` is used.  A NaN coefficient (`den2 = 0`, a constant input) keys
as `0` under ℚ's division-by-zero convention — the float sort order on NaN
keys is unspecified. -/
def corrKeySq (r : Relationship) : ℚ :=
  match r.correlation.pearson with
  | some c => c.num ^ 2 / c.den2
  | none => 0

/-- Descending order on the key (Python `sort(reverse=True)`, stable). -/
def relOrder (a b : Relationship) : Prop := corrKeySq b ≤ corrKeySq a

instance : DecidableRel relOrder := fun a b => by unfold relOrder; infer_instance

instance : IsTotal Relationship relOrder :=
  ⟨fun a b => le_total (corrKeySq b) (corrKeySq a)⟩

instance : IsTrans Relationship relOrder :=
  ⟨fun _ _ _ h1 h2 => le_trans h2 h1⟩

/-- `DatasetAnalyzer._analyze_relationships`: pairs among the first 15
numeric columns, pairs without an available correlation skipped, sorted
descending by `|r|` and truncated to 30. -/
def analyzeRelationships (inf : Inferred) : List Relationship :=
  if inf.numeric.length < 2 then []
  else
    let cols := inf.numeric.take 15
    let rels := (allPairs cols).filterMap (fun p =>
      let corr := compute_correlations (colVals p.1) (colVals p.2)
      if corr.available then
        some { var_x := p.1.name, var_y := p.2.name
               correlation := corr
               lagged_correlation := compute_lagged_correlation (colVals p.1) (colVals p.2) 5
               cross_batch_stability := mkStability inf p.1 p.2 }
      else none)
    (rels.insertionSort relOrder).take 30

/-- C6: the relationship list holds at most 30 entries, every entry has an
available correlation (unavailable pairs are excluded, not scored 0), every
entry arises from an unordered pair of the first 15 numeric columns with the
correlation computed on those two columns, and the list is sorted descending
by `|Pearson r|`. -/
theorem analyze_relationships_spec (inf : Inferred) :
    (analyzeRelationships inf).length ≤ 30 ∧
    (∀ r ∈ analyzeRelationships inf, r.correlation.available = true) ∧
    (∀ r ∈ analyzeRelationships inf, ∃ p ∈ allPairs (inf.numeric.take 15),
        r.var_x = p.1.name ∧ r.var_y = p.2.name ∧
        r.correlation = compute_correlations (colVals p.1) (colVals p.2)) ∧
    (analyzeRelationships inf).Pairwise (fun a b => corrKeySq b ≤ corrKeySq a) := by
  by_cases hn : inf.numeric.length < 2
  · unfold analyzeRelationships
    simp [hn]
  · have hrel : analyzeRelationships inf =
        (((allPairs (inf.numeric.take 15)).filterMap (fun p =>
          let corr := compute_correlations (colVals p.1) (colVals p.2)
          if corr.available then
            some { var_x := p.1.name, var_y := p.2.name
                   correlation := corr
                   lagged_correlation :=
                     compute_lagged_correlation (colVals p.1) (colVals p.2) 5
                   cross_batch_stability := mkStability inf p.1 p.2 }
          else none)).insertionSort relOrder).take 30 := by
      unfold analyzeRelationships
      simp only [if_neg hn]
    have hmem : ∀ r ∈ analyzeRelationships inf,
        ∃ p ∈ allPairs (inf.numeric.take 15),
          r.correlation.available = true ∧
          r.var_x = p.1.name ∧ r.var_y = p.2.name ∧
          r.correlation = compute_correlations (colVals p.1) (colVals p.2) := by
      intro r hr
      rw [hrel] at hr
      have hr2 := List.take_subset 30 _ hr
      have hr3 := (List.perm_insertionSort relOrder _).mem_iff.mp hr2
      obtain ⟨p, hp, hf⟩ := List.mem_filterMap.mp hr3
      by_cases havail : (compute_correlations (colVals p.1) (colVals p.2)).available = true
      · simp only [havail, if_pos] at hf
        have hrec := Option.some_injective _ hf
        refine ⟨p, hp, ?_, ?_, ?_, ?_⟩ <;> rw [← hrec] <;> simp [havail]
      · simp only [Bool.not_eq_true] at havail
        simp only [havail] at hf
        simp at hf
    refine ⟨?_, ?_, ?_, ?_⟩
    · rw [hrel, List.length_take]
      exact min_le_left _ _
    · intro r hr
      obtain ⟨p, _, h1, _⟩ := hmem r hr
      exact h1
    · intro r hr
      obtain ⟨p, hp, _, h2, h3, h4⟩ := hmem r hr
      exact ⟨p, hp, h2, h3, h4⟩
    · rw [hrel]
      apply List.Pairwise.sublist (List.take_sublist _ _)
      exact List.sorted_insertionSort relOrder _

/-- The witness frame for C6: six rows, a time column and two correlated
numeric variables. -/
def relFrame : List Column :=
  [⟨"Hour", [Cell.num 1, Cell.num 2, Cell.num 3, Cell.num 4, Cell.num 5, Cell.num 6]⟩,
   ⟨"PV", [Cell.num 1, Cell.num 2, Cell.num 3, Cell.num 4, Cell.num 5, Cell.num 6]⟩,
   ⟨"QV", [Cell.num 2, Cell.num 4, Cell.num 5, Cell.num 4, Cell.num 10, Cell.num 1]⟩]

/-- Closed witness for C6 on a concrete frame with one available pair. -/
theorem analyze_relationships_spec_witness :
    (analyzeRelationships (inferColumns relFrame)).length ≤ 30 ∧
    ((analyzeRelationships (inferColumns relFrame)).get ⟨0, by decide⟩).correlation.available
      = true :=
  ⟨(analyze_relationships_spec (inferColumns relFrame)).1,
   (analyze_relationships_spec (inferColumns relFrame)).2.1 _ (List.get_mem _ _ _)⟩

/-! ## `DatasetAnalyzer.analyze` (determinism) -/

/-- `DatasetAnalyzer.analyze`, assembled from the components embedded in this
development (role inference, quality, relationships).  Every stage is a pure
function of the input frame: the source reads no external state, draws no
randomness, and keeps no cross-request state. -/
structure Analysis where
  inferred : Inferred
  quality : QualityReport
  relationships : List Relationship
  deriving DecidableEq

/-- The pipeline entry point over the embedded components. -/
def analyze (df0 : List Column) : Analysis :=
  { inferred := inferColumns df0
    quality := analyzeQuality df0
    relationships := analyzeRelationships (inferColumns df0) }

/-- C5: the pipeline is deterministic — two runs on identical input produce
identical output documents. -/
theorem analyze_deterministic (d1 d2 : List Column) (h : d1 = d2) :
    analyze d1 = analyze d2 := by rw [h]

/-- Closed witness for C5. -/
theorem analyze_deterministic_witness : analyze relFrame = analyze relFrame :=
  analyze_deterministic relFrame relFrame rfl

end Analyzer
